import Mathlib

/-
Verification of the cobalt agent (workspace sandbox, command executor,
tool-call parser, conversation loop) against its natural-language spec.

Texts are modelled as `List Char` (Python `str`), file contents as
`List Nat` (bytes).  Filesystem state is explicit; external processes and
the language model are oracles passed as functions.
-/

namespace Cobalt

/-- Convert a Lean string literal to the `List Char` text representation. -/
def txt (s : String) : List Char := s.data

/-- `hasLead big small`: `small` is a leading segment of `big`
(Python `big.startswith(small)` / component-wise path containment). -/
def hasLead {α : Type} [DecidableEq α] : List α → List α → Bool
  | _, [] => true
  | [], _ :: _ => false
  | c :: cs, p :: ps => c = p && hasLead cs ps

/-- Python `sub in s` substring test. -/
def containsSub (s sub : List Char) : Bool :=
  match s with
  | [] => sub.isEmpty
  | _ :: rest => hasLead s sub || containsSub rest sub

/-- ASCII lowering of one character (model of `str.lower` on ASCII data). -/
def charLower (c : Char) : Char :=
  if 'A' ≤ c ∧ c ≤ 'Z' then Char.ofNat (c.toNat + 32) else c

/-- Model of `str.lower` (ASCII range). -/
def lowerTxt (s : List Char) : List Char := s.map charLower

/-- ASCII whitespace stripped by Python `str.strip`. -/
def pyWs : List Char := [' ', '\t', '\n', '\r', '\x0b', '\x0c']

/-- Model of Python `str.strip()`. -/
def pyStripTxt (s : List Char) : List Char :=
  ((s.dropWhile (· ∈ pyWs)).reverse.dropWhile (· ∈ pyWs)).reverse

/-- Join a list of texts with a separator (Python `sep.join(xs)`). -/
def joinSep (sep : List Char) : List (List Char) → List Char
  | [] => []
  | [x] => x
  | x :: y :: rest => x ++ sep ++ joinSep sep (y :: rest)

/-- Decimal digits of a natural number (helper for `str(int)`). -/
def natStrGo : Nat → Nat → List Char
  | 0, _ => []
  | fuel + 1, n =>
    if n < 10 then [Char.ofNat (48 + n)]
    else natStrGo fuel (n / 10) ++ [Char.ofNat (48 + n % 10)]

/-- Model of Python `str` on a natural number. -/
def natStr (n : Nat) : List Char := natStrGo (n + 1) n

/-- Model of Python `str` on an integer. -/
def intStr (i : Int) : List Char :=
  if i < 0 then '-' :: natStr (-i).toNat else natStr i.toNat

/-! ## Path resolution (model of `pathlib` as used by `Workspace`)

A path is a list of components (`List Char` each).  The workspace root is
the already-resolved component list of an absolute path.  Symbolic links
are outside the model. -/

/-- Split a Python path string on `/` and drop empty and `.` components,
as `pathlib.Path` does at construction.  Returns (isAbsolute, components). -/
def parsePath (p : List Char) : Bool × List (List Char) :=
  let rec go (cur : List Char) (acc : List (List Char)) : List Char → List (List Char)
    | [] => acc ++ [cur.reverse]
    | c :: rest => if c = '/' then go [] (acc ++ [cur.reverse]) rest else go (c :: cur) acc rest
  let parts := go [] [] p
  (hasLead p [ '/' ], parts.filter (fun s => ¬ (s = [] ∨ s = [ '.' ])))

/-- Process `..` components as `Path.resolve` does on a symlink-free tree:
`..` pops the last component (staying at the filesystem root if empty). -/
def resolveDots (comps : List (List Char)) : List (List Char) :=
  comps.foldl (fun acc c => if c = txt ".." then acc.dropLast else acc ++ [c]) []

/-- `(self.root / filepath).resolve()`: an absolute `filepath` replaces the
root, a relative one is appended; then `..` components are eliminated. -/
def resolveArg (root : List (List Char)) (p : List Char) : List (List Char) :=
  let parsed := parsePath p
  if parsed.1 then resolveDots parsed.2 else resolveDots (root ++ parsed.2)

/-! ## UTF-8 codec (model of Python `bytes.decode('utf-8')` / `str.encode`) -/

/-- UTF-8 encoding of one unicode scalar value. -/
def encodeChar (n : Nat) : List Nat :=
  if n < 0x80 then [n]
  else if n < 0x800 then [0xC0 + n / 64, 0x80 + n % 64]
  else if n < 0x10000 then [0xE0 + n / 4096, 0x80 + n / 64 % 64, 0x80 + n % 64]
  else [0xF0 + n / 262144, 0x80 + n / 4096 % 64, 0x80 + n / 64 % 64, 0x80 + n % 64]

/-- UTF-8 encoding of a text (model of `str.encode('utf-8')`). -/
def utf8Encode : List Char → List Nat
  | [] => []
  | c :: cs => encodeChar c.toNat ++ utf8Encode cs

/-- Decode one UTF-8 scalar from the head of a byte list.  Strict, as
CPython: overlong forms, surrogates, values above U+10FFFF and stray
continuation or lead bytes are rejected. -/
def decodeOne : List Nat → Option (Char × List Nat)
  | [] => none
  | b0 :: bs =>
    if b0 < 0x80 then some (Char.ofNat b0, bs)
    else if b0 < 0xE0 then
      match bs with
      | b1 :: r =>
        if 0xC2 ≤ b0 ∧ 0x80 ≤ b1 ∧ b1 < 0xC0 then
          some (Char.ofNat ((b0 - 0xC0) * 64 + (b1 - 0x80)), r)
        else none
      | [] => none
    else if b0 < 0xF0 then
      match bs with
      | b1 :: b2 :: r =>
        if 0x80 ≤ b1 ∧ b1 < 0xC0 ∧ 0x80 ≤ b2 ∧ b2 < 0xC0 ∧
            0x800 ≤ (b0 - 0xE0) * 4096 + (b1 - 0x80) * 64 + (b2 - 0x80) ∧
            ((b0 - 0xE0) * 4096 + (b1 - 0x80) * 64 + (b2 - 0x80) < 0xD800 ∨
              0xE000 ≤ (b0 - 0xE0) * 4096 + (b1 - 0x80) * 64 + (b2 - 0x80)) then
          some (Char.ofNat ((b0 - 0xE0) * 4096 + (b1 - 0x80) * 64 + (b2 - 0x80)), r)
        else none
      | _ => none
    else if b0 < 0xF5 then
      match bs with
      | b1 :: b2 :: b3 :: r =>
        if 0x80 ≤ b1 ∧ b1 < 0xC0 ∧ 0x80 ≤ b2 ∧ b2 < 0xC0 ∧ 0x80 ≤ b3 ∧ b3 < 0xC0 ∧
            0x10000 ≤ (b0 - 0xF0) * 262144 + (b1 - 0x80) * 4096 + (b2 - 0x80) * 64 + (b3 - 0x80) ∧
            (b0 - 0xF0) * 262144 + (b1 - 0x80) * 4096 + (b2 - 0x80) * 64 + (b3 - 0x80) < 0x110000 then
          some (Char.ofNat ((b0 - 0xF0) * 262144 + (b1 - 0x80) * 4096 + (b2 - 0x80) * 64 + (b3 - 0x80)), r)
        else none
      | _ => none
    else none

/-- Fueled UTF-8 decoding loop. -/
def utf8DecodeGo : Nat → List Nat → Option (List Char)
  | _, [] => some []
  | 0, _ :: _ => none
  | fuel + 1, b :: bs =>
    match decodeOne (b :: bs) with
    | some (c, rest) =>
      match utf8DecodeGo fuel rest with
      | some cs => some (c :: cs)
      | none => none
    | none => none

/-- Model of `bytes.decode('utf-8')`: `none` is `UnicodeDecodeError`. -/
def utf8Decode (bs : List Nat) : Option (List Char) := utf8DecodeGo bs.length bs

/-- Model of `bytes.decode('latin-1')`: every byte maps to its codepoint,
so the decoding is total. -/
def latin1Decode (bs : List Nat) : List Char := bs.map Char.ofNat

/-! ## Filesystem state and the `Workspace` operations -/

/-- Explicit filesystem: regular files (resolved absolute component paths
to byte contents) and directories. -/
structure FS where
  files : List (List (List Char) × List Nat)
  dirs : List (List (List Char))
  deriving DecidableEq

/-- First-match association-list lookup. -/
def lookupA {α β : Type} [DecidableEq α] : List (α × β) → α → Option β
  | [], _ => none
  | (k, v) :: rest, key => if k = key then some v else lookupA rest key

/-- Replace-or-append association-list update. -/
def setA {α β : Type} [DecidableEq α] : List (α × β) → α → β → List (α × β)
  | [], key, val => [(key, val)]
  | (k, v) :: rest, key, val =>
    if k = key then (key, val) :: rest else (k, v) :: setA rest key val

/-- Remove a key from an association list. -/
def removeA {α β : Type} [DecidableEq α] (l : List (α × β)) (key : α) : List (α × β) :=
  l.filter (fun kv => kv.1 ≠ key)

/-- `Workspace.read_file`: resolve against the root, reject paths escaping
the root, read bytes, decode UTF-8 with Latin-1 fallback.  `none` models
every error path (the function prints and returns `None`). -/
def read_file (fs : FS) (root : List (List Char)) (p : List Char) : Option (List Char) :=
  let full := resolveArg root p
  if hasLead full root then
    match lookupA fs.files full with
    | some bs =>
      match utf8Decode bs with
      | some s => some s
      | none => some (latin1Decode bs)
    | none => none
  else none

/-- `Workspace.write_file`: containment check, create parent directories
(`mkdir(parents=True, exist_ok=True)` fails when an ancestor is a regular
file), then overwrite.  The boolean is the Python return value; the state
is unchanged on every failure. -/
def write_file (fs : FS) (root : List (List Char)) (p : List Char) (content : List Char) :
    Bool × FS :=
  let full := resolveArg root p
  if hasLead full root then
    if (full.dropLast.inits.any fun q => (lookupA fs.files q).isSome) then (false, fs)
    else if full ∈ fs.dirs then (false, fs)
    else (true, ⟨setA fs.files full (utf8Encode content), fs.dirs ++ full.dropLast.inits⟩)
  else (false, fs)

/-- `Workspace.delete_file`: containment check, then `unlink`; unlinking a
directory raises (caught, reported as `False`); a missing target returns
`False`. -/
def delete_file (fs : FS) (root : List (List Char)) (p : List Char) : Bool × FS :=
  let full := resolveArg root p
  if hasLead full root then
    if (lookupA fs.files full).isSome then (true, ⟨removeA fs.files full, fs.dirs⟩)
    else (false, fs)
  else (false, fs)

/-! ## Command execution (model of `RunCommandTool.execute`) -/

/-- Metadata values appearing in a `ToolResult.metadata` mapping. -/
inductive MVal : Type
  | i (v : Int)
  | s (v : List Char)
  deriving DecidableEq

/-- `ToolResult` as in `tools.py` (a `None` metadata becomes `{}`). -/
structure ToolResult where
  success : Bool
  output : List Char
  error : Option (List Char)
  metadata : List (List Char × MVal)
  deriving DecidableEq

/-- Outcome of `subprocess.run`, abstracted as an oracle result:
normal exit, `TimeoutExpired`, `FileNotFoundError`, or any other fault. -/
inductive ProcOutcome : Type
  | exited (rc : Int) (out err : List Char)
  | timedOut
  | notFound
  | otherErr (msg : List Char)

/-- Characters `shlex` treats as token separators. -/
def shlexWs : List Char := [' ', '\t', '\r', '\n']

/-- POSIX `shlex.split` state machine: whitespace-separated words, single
quotes verbatim, double quotes in which backslash escapes only `"` and `\`,
backslash escaping any character outside quotes.  `Except.error` models the
`ValueError` raised on an unterminated quote or a trailing escape.  The
arguments are fuel, remaining input, current word (reversed), whether a
word is in progress, whether inside double quotes, and finished words; the
fuel never runs out when it starts at `input.length + 1`. -/
def shlexGo : Nat → List Char → List Char → Bool → Bool → List (List Char) →
    Except Unit (List (List Char))
  | 0, _, _, _, _, _ => Except.error ()
  | _ + 1, [], cur, inWord, inDq, acc =>
    if inDq then Except.error ()
    else if inWord then Except.ok (acc ++ [cur.reverse])
    else Except.ok acc
  | fuel + 1, c :: rest, cur, _, true, acc =>
    if c = '"' then shlexGo fuel rest cur true false acc
    else if c = '\\' then
      match rest with
      | [] => Except.error ()
      | e :: rest2 =>
        if e = '"' ∨ e = '\\' then shlexGo fuel rest2 (e :: cur) true true acc
        else shlexGo fuel rest2 (e :: '\\' :: cur) true true acc
    else shlexGo fuel rest (c :: cur) true true acc
  | fuel + 1, c :: rest, cur, inWord, false, acc =>
    if c ∈ shlexWs then
      if inWord then shlexGo fuel rest [] false false (acc ++ [cur.reverse])
      else shlexGo fuel rest [] false false acc
    else if c = '\x27' then
      match rest.dropWhile (· ≠ '\x27') with
      | [] => Except.error ()
      | _ :: after => shlexGo fuel after ((rest.takeWhile (· ≠ '\x27')).reverse ++ cur) true false acc
    else if c = '"' then shlexGo fuel rest cur true true acc
    else if c = '\\' then
      match rest with
      | [] => Except.error ()
      | e :: rest2 => shlexGo fuel rest2 (e :: cur) true false acc
    else shlexGo fuel rest (c :: cur) true false acc

/-- Model of `shlex.split(command)`. -/
def shlexSplit (command : List Char) : Except Unit (List (List Char)) :=
  shlexGo (command.length + 1) command [] false false []

/-- Naive `str.split()` fallback: split on runs of whitespace. -/
def naiveSplit (command : List Char) : List (List Char) :=
  let rec go : List Char → List Char → List (List Char)
    | [], cur => if cur.isEmpty then [] else [cur.reverse]
    | c :: rest, cur =>
      if c ∈ pyWs then (if cur.isEmpty then go rest [] else cur.reverse :: go rest [])
      else go rest (c :: cur)
  go command []

/-- `shlex.split` with the `except` fallback to `command.split()`. -/
def splitCommand (command : List Char) : List (List Char) :=
  match shlexSplit command with
  | Except.ok parts => parts
  | Except.error _ => naiveSplit command

/-- The fixed safe-mode allow-list (`self.allowed_commands`). -/
def allowedCommands : List (List Char) :=
  [txt "python", txt "python3", txt "pip", txt "pip3", txt "node", txt "npm", txt "npx",
   txt "ls", txt "dir", txt "cat", txt "type", txt "echo", txt "git", txt "pytest", txt "test"]

/-- The safe-mode refusal `ToolResult`, with the allow-list enumerated in
the error message. -/
def refuseResult (base : List Char) : ToolResult :=
  ⟨false, [],
    some (txt "Command \x27" ++ base ++ txt "\x27 not allowed in safe mode. Allowed: " ++
      joinSep (txt ", ") allowedCommands), []⟩

/-- Everything from `subprocess.run` on: output assembly, exit-code
success test, and the three distinct failure kinds. -/
def spawnResult (command reason base : List Char) (o : ProcOutcome) : ToolResult :=
  match o with
  | ProcOutcome.exited rc out err =>
    let output := out ++ (if err.isEmpty then [] else txt "\n[stderr]: " ++ err)
    let output := if output.isEmpty then txt "(no output)" else output
    ⟨rc = 0, output,
      if rc = 0 then none else some (txt "Command exited with code " ++ intStr rc),
      [(txt "returncode", MVal.i rc), (txt "command", MVal.s command), (txt "reason", MVal.s reason)]⟩
  | ProcOutcome.timedOut => ⟨false, [], some (txt "Command timed out after 60 seconds"), []⟩
  | ProcOutcome.notFound => ⟨false, [], some (txt "Command not found: " ++ base), []⟩
  | ProcOutcome.otherErr msg => ⟨false, [], some (txt "Error running command: " ++ msg), []⟩

/-- `RunCommandTool.execute(command, reason)`.  The spawned process is an
oracle `proc`; refusal paths never consult it. -/
def runCommand (command reason : List Char) (safeMode : Bool)
    (proc : List (List Char) → ProcOutcome) : ToolResult :=
  match splitCommand command with
  | [] => ⟨false, [], some (txt "Empty command"), []⟩
  | base :: rest =>
    if safeMode ∧ ¬ (allowedCommands.any fun a => hasLead base a) then refuseResult base
    else spawnResult command reason base (proc (base :: rest))

/-! ## JSON values and `json.loads` (model of the CPython strict decoder) -/

/-- JSON values.  Number literals keep their lexeme (no numeric claim
inspects their value). -/
inductive Json : Type
  | null
  | bool (b : Bool)
  | num (lex : List Char)
  | str (s : List Char)
  | arr (elems : List Json)
  | obj (fields : List (List Char × Json))

/-- JSON whitespace accepted between tokens. -/
def jWs : List Char := [' ', '\t', '\n', '\r']

/-- Skip JSON whitespace. -/
def skipJWs (s : List Char) : List Char := s.dropWhile (· ∈ jWs)

/-- Hexadecimal digit value. -/
def hexVal (c : Char) : Option Nat :=
  if '0' ≤ c ∧ c ≤ '9' then some (c.toNat - 48)
  else if 'a' ≤ c ∧ c ≤ 'f' then some (c.toNat - 87)
  else if 'A' ≤ c ∧ c ≤ 'F' then some (c.toNat - 55)
  else none

/-- Parse the body of a JSON string literal (after the opening quote),
returning the decoded text and the input after the closing quote.
Unescaped control characters are rejected (strict mode); `\uXXXX`
surrogate pairs are combined; a lone surrogate escape is rejected (CPython
would keep it, but such a character is outside the scalar-value model and
is produced by no claim input). -/
def parseJStr : Nat → List Char → Option (List Char × List Char)
  | 0, _ => none
  | _ + 1, [] => none
  | fuel + 1, c :: rest =>
    if c = '"' then some ([], rest)
    else if c = '\\' then
      match rest with
      | [] => none
      | e :: r2 =>
        if e = 'u' then
          match r2 with
          | h1 :: h2 :: h3 :: h4 :: r3 =>
            match hexVal h1, hexVal h2, hexVal h3, hexVal h4 with
            | some v1, some v2, some v3, some v4 =>
              let v := v1 * 4096 + v2 * 256 + v3 * 16 + v4
              if 0xD800 ≤ v ∧ v < 0xDC00 then
                match r3 with
                | '\\' :: 'u' :: g1 :: g2 :: g3 :: g4 :: r4 =>
                  match hexVal g1, hexVal g2, hexVal g3, hexVal g4 with
                  | some w1, some w2, some w3, some w4 =>
                    let w := w1 * 4096 + w2 * 256 + w3 * 16 + w4
                    if 0xDC00 ≤ w ∧ w < 0xE000 then
                      match parseJStr fuel r4 with
                      | some (s, rem) =>
                        some (Char.ofNat (0x10000 + (v - 0xD800) * 1024 + (w - 0xDC00)) :: s, rem)
                      | none => none
                    else none
                  | _, _, _, _ => none
                | _ => none
              else if 0xDC00 ≤ v ∧ v < 0xE000 then none
              else
                match parseJStr fuel r3 with
                | some (s, rem) => some (Char.ofNat v :: s, rem)
                | none => none
            | _, _, _, _ => none
          | _ => none
        else
          let esc : Option Char :=
            if e = '"' then some '"'
            else if e = '\\' then some '\\'
            else if e = '/' then some '/'
            else if e = 'b' then some '\x08'
            else if e = 'f' then some '\x0c'
            else if e = 'n' then some '\n'
            else if e = 'r' then some '\r'
            else if e = 't' then some '\t'
            else none
          match esc with
          | some ec =>
            match parseJStr fuel r2 with
            | some (s, rem) => some (ec :: s, rem)
            | none => none
          | none => none
    else if c.toNat < 0x20 then none
    else
      match parseJStr fuel rest with
      | some (s, rem) => some (c :: s, rem)
      | none => none

/-- Parse a JSON number lexeme: `-? (0 | [1-9][0-9]*) frac? exp?`. -/
def parseJNum (s : List Char) : Option (List Char × List Char) :=
  let afterSign := if hasLead s [ '-' ] then s.drop 1 else s
  let sign : List Char := if hasLead s [ '-' ] then [ '-' ] else []
  match afterSign with
  | [] => none
  | d :: rest =>
    if d = '0' then
      let (frac, r2) := parseFracExp rest
      some (sign ++ [d] ++ frac, r2)
    else if d.isDigit then
      let more := rest.takeWhile Char.isDigit
      let r1 := rest.dropWhile Char.isDigit
      let (frac, r2) := parseFracExp r1
      some (sign ++ [d] ++ more ++ frac, r2)
    else none
where
  /-- Optional fraction and exponent parts. -/
  parseFracExp (s : List Char) : List Char × List Char :=
    let (fr, s1) :=
      match s with
      | '.' :: t =>
        let ds := t.takeWhile Char.isDigit
        if ds.isEmpty then ([], s) else ('.' :: ds, t.dropWhile Char.isDigit)
      | _ => ([], s)
    match s1 with
    | e :: t =>
      if e = 'e' ∨ e = 'E' then
        let (sg, t2) :=
          match t with
          | '+' :: u => ([ '+' ], u)
          | '-' :: u => ([ '-' ], u)
          | _ => ([], t)
        let ds := t2.takeWhile Char.isDigit
        if ds.isEmpty then (fr, s1) else (fr ++ [e] ++ sg ++ ds, t2.dropWhile Char.isDigit)
      else (fr, s1)
    | [] => (fr, s1)

mutual

/-- Parse one JSON value at the head of the input (whitespace already
skipped), returning the value and the remaining input. -/
def parseJVal : Nat → List Char → Option (Json × List Char)
  | 0, _ => none
  | fuel + 1, s =>
    match s with
    | 't' :: 'r' :: 'u' :: 'e' :: r => some (Json.bool true, r)
    | 'f' :: 'a' :: 'l' :: 's' :: 'e' :: r => some (Json.bool false, r)
    | 'n' :: 'u' :: 'l' :: 'l' :: r => some (Json.null, r)
    | '"' :: r =>
      match parseJStr (r.length + 1) r with
      | some (str, rem) => some (Json.str str, rem)
      | none => none
    | '\x7b' :: r =>
      match parseJFields fuel (skipJWs r) true with
      | some (fields, rem) => some (Json.obj fields, rem)
      | none => none
    | '[' :: r =>
      match parseJElems fuel (skipJWs r) true with
      | some (elems, rem) => some (Json.arr elems, rem)
      | none => none
    | _ =>
      match parseJNum s with
      | some (lex, rem) => some (Json.num lex, rem)
      | none => none

/-- Parse the fields of a JSON object after `{` (whitespace skipped);
`first` is true before any field has been read. -/
def parseJFields : Nat → List Char → Bool → Option (List (List Char × Json) × List Char)
  | 0, _, _ => none
  | fuel + 1, s, first =>
    match s with
    | '\x7d' :: r => if first then some ([], r) else none
    | '"' :: r =>
      match parseJStr (r.length + 1) r with
      | some (key, r2) =>
        match skipJWs r2 with
        | ':' :: r3 =>
          match parseJVal fuel (skipJWs r3) with
          | some (v, r4) =>
            match skipJWs r4 with
            | ',' :: r5 =>
              match parseJFields fuel (skipJWs r5) false with
              | some (fields, rem) => some ((key, v) :: fields, rem)
              | none => none
            | '\x7d' :: r5 => some ([(key, v)], r5)
            | _ => none
          | none => none
        | _ => none
      | none => none
    | _ => none

/-- Parse the elements of a JSON array after `[` (whitespace skipped). -/
def parseJElems : Nat → List Char → Bool → Option (List Json × List Char)
  | 0, _, _ => none
  | fuel + 1, s, first =>
    match s with
    | ']' :: r => if first then some ([], r) else none
    | _ =>
      match parseJVal fuel s with
      | some (v, r2) =>
        match skipJWs r2 with
        | ',' :: r3 =>
          match parseJElems fuel (skipJWs r3) false with
          | some (elems, rem) => some (v :: elems, rem)
          | none => none
        | ']' :: r3 => some ([v], r3)
        | _ => none
      | none => none

end

/-- Model of `json.loads`: one value, optionally surrounded by
whitespace, and nothing else.  `none` is `JSONDecodeError`. -/
def jsonLoads (s : List Char) : Option Json :=
  match parseJVal (s.length + 1) (skipJWs s) with
  | some (v, rest) => if (skipJWs rest).isEmpty then some v else none
  | none => none

/-! ## Tool-call extraction (model of `CobaltAgent._extract_tool_calls`) -/

/-- A parsed tool-call request (`ToolCall` in `tools.py`); the fields hold
whatever JSON values the reply supplied. -/
structure ToolCall where
  toolName : Json
  parameters : Json
  reasoning : Json

/-- Python dict lookup on parse order: the LAST binding of a duplicated
key wins. -/
def getKeyLast (fields : List (List Char × Json)) (k : List Char) : Option Json :=
  match fields with
  | [] => none
  | (key, v) :: rest =>
    match getKeyLast rest k with
    | some w => some w
    | none => if key = k then some v else none

/-- `'tool' in data`. -/
def hasKeyJ (fields : List (List Char × Json)) (k : List Char) : Bool :=
  fields.any fun kv => kv.1 = k

/-- Build a `ToolCall` from a parsed object:
`data['tool']`, `data.get('parameters', {})`, `data.get('reason', '')`. -/
def callOfFields (fields : List (List Char × Json)) : ToolCall :=
  ⟨(getKeyLast fields (txt "tool")).getD Json.null,
   (getKeyLast fields (txt "parameters")).getD (Json.obj []),
   (getKeyLast fields (txt "reason")).getD (Json.str [])⟩

/-- The shared acceptance test of all three tiers: a parse result yields a
request iff it is an object containing a `tool` key. -/
def callFromJson : Option Json → Option ToolCall
  | some (Json.obj fields) =>
    if hasKeyJ fields (txt "tool") then some (callOfFields fields) else none
  | _ => none

/-- `\s` of the tier-1 regex (ASCII range). -/
def isReSpace (c : Char) : Bool := c ∈ pyWs

/-- Case-insensitive leading-segment test (the tier-1 regex is compiled
with `IGNORECASE`). -/
def hasLeadCi : List Char → List Char → Bool
  | _, [] => true
  | [], _ :: _ => false
  | c :: cs, p :: ps => charLower c = charLower p && hasLeadCi cs ps

/-- First occurrence split: `some (before, after)` such that
`s = before ++ sub ++ after` at the earliest position. -/
def splitFirstSub : List Char → List Char → Option (List Char × List Char)
  | [], sub => if sub.isEmpty then some ([], []) else none
  | c :: rest, sub =>
    if hasLead (c :: rest) sub then some ([], (c :: rest).drop sub.length)
    else
      match splitFirstSub rest sub with
      | some (b, a) => some (c :: b, a)
      | none => none

/-- Attempt the fenced-block pattern (regex ` ```json\s*\n(.*?)\n``` `) at
the current position: literal backticks and case-insensitive `json`, then
greedy-with-backtrack `\s*\n` (the whitespace run up to its last newline),
then the lazy body up to the first `\n` + three backticks.  Returns the
body and the input after the whole match. -/
def tryFenceAt (s : List Char) : Option (List Char × List Char) :=
  if hasLead s (txt "```") then
    let a := s.drop 3
    if hasLeadCi a (txt "json") then
      let b := a.drop 4
      let run := b.takeWhile isReSpace
      let upto := run.reverse.dropWhile (· ≠ '\n')
      if upto.isEmpty then none
      else splitFirstSub (b.drop upto.length) (txt "\n```")
    else none
  else none

/-- All bodies of fenced matches, scanned left to right without overlap
(`re.findall` semantics). -/
def fencedBlocksGo : Nat → List Char → List (List Char)
  | 0, _ => []
  | fuel + 1, s =>
    match s with
    | [] => []
    | _ :: rest =>
      match tryFenceAt s with
      | some (body, after) => body :: fencedBlocksGo fuel after
      | none => fencedBlocksGo fuel rest

/-- The fenced bodies of a reply. -/
def fencedBlocks (s : List Char) : List (List Char) := fencedBlocksGo s.length s

/-- Tier 1: every fenced body that strips and parses to an object with a
`tool` key yields one request; the others are skipped individually. -/
def tier1 (resp : List Char) : List ToolCall :=
  (fencedBlocks resp).filterMap fun block => callFromJson (jsonLoads (pyStripTxt block))

/-- The provider-specific marker recognised first by tier 2. -/
def markerA : List Char := txt "<|constrain|>json<|message|>"

/-- The second, more general marker of tier 2. -/
def markerB : List Char := txt "<|message|>"

/-- Suffixes following each non-overlapping occurrence of `tok`, left to
right (`re.finditer` on a literal pattern). -/
def occAftersGo : Nat → List Char → List Char → List (List Char)
  | 0, _, _ => []
  | fuel + 1, s, tok =>
    match s with
    | [] => []
    | _ :: rest =>
      if hasLead s tok then (s.drop tok.length) :: occAftersGo fuel (s.drop tok.length) tok
      else occAftersGo fuel rest tok

/-- All suffixes after occurrences of `tok` in `s`. -/
def occAfters (s tok : List Char) : List (List Char) := occAftersGo s.length s tok

/-- The naive brace walk shared by tiers 2 and 3: from a position, count
`{` up and `}` down (string contents are NOT respected) and return the
segment ending at the first brace that brings the count to zero. -/
def braceSegGo : List Char → Int → List Char → Option (List Char)
  | [], _, _ => none
  | c :: rest, depth, acc =>
    if c = '\x7b' then braceSegGo rest (depth + 1) (c :: acc)
    else if c = '\x7d' then
      if depth - 1 = 0 then some ((c :: acc).reverse)
      else braceSegGo rest (depth - 1) (c :: acc)
    else braceSegGo rest depth (c :: acc)

/-- Balanced-brace segment starting at the head of `s`. -/
def braceSegment (s : List Char) : Option (List Char) := braceSegGo s 0 []

/-- Tier-2 treatment of the text after one marker: skip ` `, `\n`, `\t`,
require `{`, walk to the balancing brace, parse once.  No repair is
attempted here. -/
def tier2One (aft : List Char) : Option ToolCall :=
  let a2 := aft.dropWhile (· ∈ [' ', '\n', '\t'])
  match a2 with
  | '\x7b' :: _ =>
    match braceSegment a2 with
    | some seg => callFromJson (jsonLoads seg)
    | none => none
  | _ => none

/-- Tier 2: all occurrences of the first marker are processed; only if
they all yield nothing is the second marker tried. -/
def tier2 (resp : List Char) : List ToolCall :=
  match (occAfters resp markerA).filterMap tier2One with
  | [] => (occAfters resp markerB).filterMap tier2One
  | xs => xs

/-- Tier 3: at EVERY `{` of the text (the loop does not stop after a
hit), parse the balanced segment and accept objects with a `tool` key. -/
def tier3Go : Nat → List Char → List ToolCall
  | 0, _ => []
  | fuel + 1, s =>
    match s with
    | [] => []
    | c :: rest =>
      match (if c = '\x7b' then (braceSegment s).bind (fun seg => callFromJson (jsonLoads seg)) else none) with
      | some tc => tc :: tier3Go fuel rest
      | none => tier3Go fuel rest

/-- Tier-3 scan of a reply. -/
def tier3 (resp : List Char) : List ToolCall := tier3Go resp.length resp

/-- `_extract_tool_calls`: the three-tier cascade, each tier only when the
previous produced zero results. -/
def extractToolCalls (resp : List Char) : List ToolCall :=
  let a := tier1 resp
  if a.isEmpty then
    let b := tier2 resp
    if b.isEmpty then tier3 resp else b
  else a

/-! ## Caller-side recovery and the turn loop (model of `execute_task`) -/

/-- `s.split(tok)[-1]`: the text after the last non-overlapping
occurrence of `tok` (the whole of `s` when absent). -/
def splitLastAfterGo : Nat → List Char → List Char → List Char → List Char
  | 0, _, _, last => last
  | fuel + 1, s, tok, last =>
    match s with
    | [] => last
    | _ :: rest =>
      if hasLead s tok then splitLastAfterGo fuel (s.drop tok.length) tok (s.drop tok.length)
      else splitLastAfterGo fuel rest tok last

/-- Text after the last occurrence of `tok` in `s`. -/
def splitLastAfter (s tok : List Char) : List Char := splitLastAfterGo s.length s tok s

/-- `s.split(sub)[0]`: the text before the first occurrence. -/
def takeBeforeSub (s sub : List Char) : List Char :=
  match splitFirstSub s sub with
  | some (b, _) => b
  | none => s

/-- Number of occurrences of a character (`s.count(c)`). -/
def countChar (s : List Char) (c : Char) : Nat := (s.filter (· = c)).length

/-- The manual repair loop of `execute_task`: for each marker present,
take the text after its last occurrence, strip it, cut at the next `<|`,
append the brace deficit, parse once; the first marker producing an
object with a `tool` key wins. -/
def recoverGo : List (List Char) → List Char → List ToolCall
  | [], _ => []
  | tag :: more, ai =>
    if containsSub ai tag then
      let jp := pyStripTxt (splitLastAfter ai tag)
      let jp := takeBeforeSub jp (txt "<|")
      let jp :=
        if countChar jp '\x7b' > countChar jp '\x7d' then
          jp ++ List.replicate (countChar jp '\x7b' - countChar jp '\x7d') '\x7d'
        else jp
      match callFromJson (jsonLoads jp) with
      | some tc => [tc]
      | none => recoverGo more ai
    else recoverGo more ai

/-- The recovery block guarded by marker presence, as in `execute_task`. -/
def agentRecovery (ai : List Char) : List ToolCall :=
  if containsSub ai markerA ∨ containsSub ai markerB then recoverGo [markerA, markerB] ai
  else []

/-- The parsing pipeline as the turn loop sees it: the cascade, then (only
when it yielded nothing) the caller-side recovery. -/
def extractThenRecover (ai : List Char) : List ToolCall :=
  let tcs := extractToolCalls ai
  if tcs.isEmpty then agentRecovery ai else tcs

/-- A conversation message. -/
structure Msg where
  role : List Char
  content : List Char

/-- How one task execution ends.  `noResults` is the silent `break` taken
when no tool call was parsed and no marker token is present; `capReached`
is exhaustion of the turn budget. -/
inductive RunOutcome : Type
  | llmFailed
  | taskCompleted
  | formatWarn
  | noResults
  | capReached
  deriving DecidableEq

/-- The completion vocabulary of the termination heuristic. -/
def doneWords : List (List Char) :=
  [txt "done", txt "completed", txt "finished", txt "success", txt "task completed"]

/-- `any(word in ai_response.lower() for word in done_words)`. -/
def hasDoneWord (ai : List Char) : Bool :=
  doneWords.any fun w => containsSub (lowerTxt ai) w

/-- Rendering of a JSON value as Python `repr` (single-quoted strings,
`True`/`False`/`None`); escape sequences inside strings are not modelled.
Used only to build the per-call result line. -/
def pyReprJ : Json → List Char
  | Json.null => txt "None"
  | Json.bool true => txt "True"
  | Json.bool false => txt "False"
  | Json.num lex => lex
  | Json.str s => '\x27' :: s ++ [ '\x27' ]
  | Json.arr xs => '[' :: joinSep (txt ", ") (xs.attach.map fun x => pyReprJ x.1) ++ [ ']' ]
  | Json.obj fs =>
    '\x7b' :: joinSep (txt ", ")
      (fs.attach.map fun f => ('\x27' :: f.1.1 ++ [ '\x27' ]) ++ txt ": " ++ pyReprJ f.1.2) ++
      [ '\x7d' ]
  decreasing_by
  · have := List.sizeOf_lt_of_mem x.2
    simp only [Json.arr.sizeOf_spec]
    omega
  · obtain ⟨⟨k, v⟩, hf⟩ := f
    have := List.sizeOf_lt_of_mem hf
    simp only [Json.obj.sizeOf_spec]
    simp only [Prod.mk.sizeOf_spec] at this
    omega

/-- Python `str()` of a JSON value (`f"{tc.tool_name}"`). -/
def pyFormatJ (j : Json) : List Char :=
  match j with
  | Json.str s => s
  | _ => pyReprJ j

/-- The per-turn result lines: `_exec_tool`(confirmation gate included) is
the oracle `execRes`; a falsy (empty) return is not appended. -/
def buildResults (execRes : ToolCall → List Char) (tcs : List ToolCall) : List (List Char) :=
  tcs.filterMap fun tc =>
    let r := execRes tc
    if r.isEmpty then none else some (pyFormatJ tc.toolName ++ txt ": " ++ r)

/-- The follow-up user message (the source writes literal backslash-n,
`"Results:\\n"`, into the string). -/
def resultsMsg (results : List (List Char)) : List Char :=
  txt "Results:\\n" ++ joinSep (txt "\\n") results ++
    txt "\\n\\nContinue or say \x27Task completed\x27."

/-- One run of the multi-turn loop of `execute_task`, on an LLM oracle and
a tool-execution oracle.  Returns the outcome and the number of turns in
which the model was called.  When the cascade yields nothing and a marker
token is present, the manual recovery runs but the loop breaks before any
recovered call could execute, so only the done-word scan decides. -/
def execTaskGo (llm : List Msg → Option (List Char)) (execRes : ToolCall → List Char) :
    List Msg → Nat → RunOutcome × Nat
  | _, 0 => (RunOutcome.capReached, 0)
  | msgs, fuel + 1 =>
    match llm msgs with
    | none => (RunOutcome.llmFailed, 1)
    | some content =>
      let msgs2 := msgs ++ [⟨txt "assistant", content⟩]
      let tcs := extractToolCalls content
      if tcs.isEmpty ∧ (containsSub content markerA ∨ containsSub content markerB) then
        if hasDoneWord content then (RunOutcome.taskCompleted, 1) else (RunOutcome.formatWarn, 1)
      else
        let results := buildResults execRes tcs
        if results.isEmpty then (RunOutcome.noResults, 1)
        else
          let next := execTaskGo llm execRes (msgs2 ++ [⟨txt "user", resultsMsg results⟩]) fuel
          (next.1, next.2 + 1)

/-- `execute_task(task, max_turns)`: seed the history with the system
prompt and the task message (the source writes literal backslash-n), then
loop. -/
def execTask (llm : List Msg → Option (List Char)) (execRes : ToolCall → List Char)
    (sysPrompt task ws : List Char) (maxTurns : Nat) : RunOutcome × Nat :=
  execTaskGo llm execRes
    [⟨txt "system", sysPrompt⟩, ⟨txt "user", txt "Task: " ++ task ++ txt "\\nWorkspace: " ++ ws⟩]
    maxTurns

/-- Outcomes that mark the task as failed to the user (the LLM-failure
error and the format-not-understood warning). -/
def isFailureMark : RunOutcome → Bool
  | RunOutcome.llmFailed => true
  | RunOutcome.formatWarn => true
  | _ => false

/-! ## Lemmas: the UTF-8 codec round-trips -/

theorem charOfNatToNat (c : Char) : Char.ofNat c.toNat = c := by
  have h : c.toNat.isValidChar := c.valid
  apply Char.eq_of_val_eq
  apply UInt32.toNat.inj
  simp only [Char.ofNat, Char.ofNatAux, Char.toNat, UInt32.toNat]
  split
  · rfl
  · next hn => exact absurd h hn

theorem encodeChar_length_pos (n : Nat) : 1 ≤ (encodeChar n).length := by
  unfold encodeChar
  split_ifs <;> simp

theorem encodeChar_length_le (n : Nat) : (encodeChar n).length ≤ 4 := by
  unfold encodeChar
  split_ifs <;> simp

theorem decodeOne_enc (c : Char) (tail : List Nat) :
    decodeOne (encodeChar c.toNat ++ tail) = some (c, tail) := by
  have hv : c.toNat < 0xD800 ∨ (0xDFFF < c.toNat ∧ c.toNat < 0x110000) := c.valid
  by_cases h1 : c.toNat < 0x80
  · rw [encodeChar, if_pos h1]
    simp only [List.cons_append, List.nil_append, decodeOne]
    rw [if_pos h1, charOfNatToNat]
  · by_cases h2 : c.toNat < 0x800
    · rw [encodeChar, if_neg h1, if_pos h2]
      simp only [List.cons_append, List.nil_append, decodeOne]
      rw [if_neg (by omega), if_pos (by omega), if_pos (by omega)]
      rw [show (0xC0 + c.toNat / 64 - 0xC0) * 64 + (0x80 + c.toNat % 64 - 0x80) = c.toNat by omega]
      rw [charOfNatToNat]
    · by_cases h3 : c.toNat < 0x10000
      · rw [encodeChar, if_neg h1, if_neg h2, if_pos h3]
        simp only [List.cons_append, List.nil_append, decodeOne]
        rw [if_neg (by omega), if_neg (by omega), if_pos (by omega), if_pos (by omega)]
        rw [show (0xE0 + c.toNat / 4096 - 0xE0) * 4096 + (0x80 + c.toNat / 64 % 64 - 0x80) * 64 +
          (0x80 + c.toNat % 64 - 0x80) = c.toNat by omega]
        rw [charOfNatToNat]
      · rw [encodeChar, if_neg h1, if_neg h2, if_neg h3]
        simp only [List.cons_append, List.nil_append, decodeOne]
        rw [if_neg (by omega), if_neg (by omega), if_neg (by omega), if_pos (by omega),
          if_pos (by omega)]
        rw [show (0xF0 + c.toNat / 262144 - 0xF0) * 262144 + (0x80 + c.toNat / 4096 % 64 - 0x80) *
          4096 + (0x80 + c.toNat / 64 % 64 - 0x80) * 64 + (0x80 + c.toNat % 64 - 0x80) = c.toNat
          by omega]
        rw [charOfNatToNat]

theorem utf8DecodeGo_enc (s : List Char) :
    ∀ fuel : Nat, (utf8Encode s).length ≤ fuel → utf8DecodeGo fuel (utf8Encode s) = some s := by
  induction s with
  | nil => intro fuel _; rw [utf8Encode, utf8DecodeGo]
  | cons c cs ih =>
    intro fuel hlen
    rw [utf8Encode] at hlen ⊢
    have hpos := encodeChar_length_pos c.toNat
    rcases henc : encodeChar c.toNat with _ | ⟨b, tl⟩
    · rw [henc] at hpos; simp at hpos
    · have hfuel : (utf8Encode cs).length + 1 ≤ fuel := by
        rw [List.length_append, henc] at hlen
        simp at hlen
        omega
      rcases fuel with _ | f
      · omega
      · simp only [utf8DecodeGo]
        rw [show (b :: tl.append (utf8Encode cs)) = encodeChar c.toNat ++ utf8Encode cs by
          rw [henc]; rfl]
        rw [decodeOne_enc]
        simp only [ih f (by omega)]

theorem utf8_roundtrip (s : List Char) : utf8Decode (utf8Encode s) = some s :=
  utf8DecodeGo_enc s _ le_rfl

/-! ## Lemmas: association-list operations -/

theorem lookupA_setA {α β : Type} [DecidableEq α] (l : List (α × β)) (k : α) (v : β) :
    lookupA (setA l k v) k = some v := by
  induction l with
  | nil => simp [setA, lookupA]
  | cons kv rest ih =>
    rcases kv with ⟨k0, v0⟩
    by_cases h : k0 = k
    · simp [setA, h, lookupA]
    · simp [setA, h, lookupA, ih]

theorem lookupA_removeA {α β : Type} [DecidableEq α] (l : List (α × β)) (k : α) :
    lookupA (removeA l k) k = none := by
  induction l with
  | nil => simp [removeA, lookupA]
  | cons kv rest ih =>
    rcases kv with ⟨k0, v0⟩
    by_cases h : k0 = k
    · simpa [removeA, h] using ih
    · simpa [removeA, h, lookupA] using ih

/-! ## Claim C1: root containment of the workspace operations -/

/-- Claim C1: for every path argument whose resolution against the
workspace root is not a descendant of the root (`../../etc/passwd`-style
traversal included), `read_file` returns not-found, `write_file` and
`delete_file` return failure, and the filesystem state is untouched — the
rejection happens through the normal result channel with no partial
operation. -/
theorem workspace_rejects_outside_root
    (fs : FS) (root : List (List Char)) (p c : List Char)
    (h : hasLead (resolveArg root p) root = false) :
    read_file fs root p = none ∧ write_file fs root p c = (false, fs) ∧
    delete_file fs root p = (false, fs) := by
  refine ⟨?_, ?_, ?_⟩ <;> simp [read_file, write_file, delete_file, h]

/-- Witness for C1: a concrete traversal argument `../../etc/passwd`
against root `/home/user/ws` is rejected by all three operations on a
concrete filesystem. -/
theorem workspace_rejects_outside_root_witness :
    read_file ⟨[([txt "home", txt "user", txt "ws", txt "a.txt"], [65])],
        [[txt "home", txt "user", txt "ws"]]⟩
      [txt "home", txt "user", txt "ws"] (txt "../../etc/passwd") = none ∧
    write_file ⟨[([txt "home", txt "user", txt "ws", txt "a.txt"], [65])],
        [[txt "home", txt "user", txt "ws"]]⟩
      [txt "home", txt "user", txt "ws"] (txt "../../etc/passwd") (txt "x") =
      (false, ⟨[([txt "home", txt "user", txt "ws", txt "a.txt"], [65])],
        [[txt "home", txt "user", txt "ws"]]⟩) ∧
    delete_file ⟨[([txt "home", txt "user", txt "ws", txt "a.txt"], [65])],
        [[txt "home", txt "user", txt "ws"]]⟩
      [txt "home", txt "user", txt "ws"] (txt "../../etc/passwd") =
      (false, ⟨[([txt "home", txt "user", txt "ws", txt "a.txt"], [65])],
        [[txt "home", txt "user", txt "ws"]]⟩) :=
  workspace_rejects_outside_root _ _ _ (txt "x") (by decide)

/-! ## Claim C8: write/read round trip and decoding fallback -/

/-- Claim C8: a successful `write_file(p, c)` followed by `read_file(p)`
returns `c` unchanged (the write fully overwrites whatever was there and
creates intermediate directories, which is why success is the only
hypothesis); and for stored bytes on which UTF-8 decoding fails,
`read_file` degrades to the total Latin-1 decoding instead of reporting
not-found, so not-found would require both decodings to fail. -/
theorem write_read_roundtrip
    (fs fs' : FS) (root : List (List Char)) (p c : List Char)
    (hw : write_file fs root p c = (true, fs'))
    (gfs : FS) (q : List Char) (bs : List Nat)
    (hq : hasLead (resolveArg root q) root = true)
    (hbs : lookupA gfs.files (resolveArg root q) = some bs) :
    read_file fs' root p = some c ∧
    read_file gfs root q = some ((utf8Decode bs).getD (latin1Decode bs)) ∧
    (utf8Decode bs = none → read_file gfs root q = some (latin1Decode bs)) := by
  refine ⟨?_, ?_, ?_⟩
  · simp only [write_file] at hw
    split_ifs at hw with h1 h2 h3
    · simp at hw
    · simp at hw
    · have hfs' : fs' = ⟨setA fs.files (resolveArg root p) (utf8Encode c),
          fs.dirs ++ (resolveArg root p).dropLast.inits⟩ :=
        (congrArg Prod.snd hw).symm
      subst hfs'
      simp only [read_file]
      rw [if_pos h1]
      simp [lookupA_setA, utf8_roundtrip]
    · simp at hw
  · simp [read_file, hq, hbs]
    cases h : utf8Decode bs <;> simp [h]
  · intro hnone
    simp [read_file, hq, hbs, hnone]

/-- Witness for C8: on a concrete filesystem, writing `a/b.txt` with
multi-byte UTF-8 content (2-, 3- and 4-byte sequences) and reading it back
returns the content; a file holding the byte `0xFF` (invalid UTF-8) reads
back as its Latin-1 decoding. -/
theorem write_read_roundtrip_witness :
    read_file (write_file ⟨[], [[txt "ws"]]⟩ [txt "ws"] (txt "a/b.txt") (txt "héllo ✓ 𝄞")).2
      [txt "ws"] (txt "a/b.txt") = some (txt "héllo ✓ 𝄞") ∧
    read_file ⟨[([txt "ws", txt "f.bin"], [255])], [[txt "ws"]]⟩ [txt "ws"] (txt "f.bin") =
      some (latin1Decode [255]) := by
  have h := write_read_roundtrip ⟨[], [[txt "ws"]]⟩
    (write_file ⟨[], [[txt "ws"]]⟩ [txt "ws"] (txt "a/b.txt") (txt "héllo ✓ 𝄞")).2
    [txt "ws"] (txt "a/b.txt") (txt "héllo ✓ 𝄞") (by decide)
    ⟨[([txt "ws", txt "f.bin"], [255])], [[txt "ws"]]⟩ (txt "f.bin") [255]
    (by decide) (by decide)
  exact ⟨h.1, h.2.2 (by decide)⟩

/-! ## Claim C10: `delete_file` semantics -/

/-- Claim C10: `delete_file` on an in-workspace target that is a directory
returns failure with the state (directory and contents) untouched; it
returns success exactly when the target is an in-bounds regular file, in
which case the file is removed; a nonexistent target yields failure. -/
theorem delete_file_contract (fs : FS) (root : List (List Char)) (p : List Char) :
    (hasLead (resolveArg root p) root = true →
      lookupA fs.files (resolveArg root p) = none →
      resolveArg root p ∈ fs.dirs →
      delete_file fs root p = (false, fs)) ∧
    ((delete_file fs root p).1 = true ↔
      hasLead (resolveArg root p) root = true ∧
        (lookupA fs.files (resolveArg root p)).isSome = true) ∧
    (hasLead (resolveArg root p) root = true →
      (lookupA fs.files (resolveArg root p)).isSome = true →
      delete_file fs root p = (true, ⟨removeA fs.files (resolveArg root p), fs.dirs⟩) ∧
        lookupA (removeA fs.files (resolveArg root p)) (resolveArg root p) = none) ∧
    (lookupA fs.files (resolveArg root p) = none → delete_file fs root p = (false, fs)) := by
  refine ⟨?_, ?_, ?_, ?_⟩
  · intro h1 h2 _
    simp [delete_file, h1, h2]
  · simp only [delete_file]
    split_ifs with h1 h2 <;> simp_all
  · intro h1 h2
    refine ⟨by simp [delete_file, h1, h2], lookupA_removeA _ _⟩
  · intro h2
    simp only [delete_file]
    split_ifs with h1 h3 <;> simp_all

/-- Witness for C10: on a concrete filesystem with directory `ws/d` and
file `ws/d/x`, deleting `d` fails and changes nothing, deleting `d/x`
succeeds and removes the file, and deleting a missing `nope` fails. -/
theorem delete_file_contract_witness :
    delete_file ⟨[([txt "ws", txt "d", txt "x"], [65])], [[txt "ws"], [txt "ws", txt "d"]]⟩
      [txt "ws"] (txt "d") =
      (false, ⟨[([txt "ws", txt "d", txt "x"], [65])], [[txt "ws"], [txt "ws", txt "d"]]⟩) ∧
    delete_file ⟨[([txt "ws", txt "d", txt "x"], [65])], [[txt "ws"], [txt "ws", txt "d"]]⟩
      [txt "ws"] (txt "d/x") =
      (true, ⟨removeA [([txt "ws", txt "d", txt "x"], [65])] [txt "ws", txt "d", txt "x"],
        [[txt "ws"], [txt "ws", txt "d"]]⟩) ∧
    delete_file ⟨[([txt "ws", txt "d", txt "x"], [65])], [[txt "ws"], [txt "ws", txt "d"]]⟩
      [txt "ws"] (txt "nope") =
      (false, ⟨[([txt "ws", txt "d", txt "x"], [65])], [[txt "ws"], [txt "ws", txt "d"]]⟩) := by
  have h1 := delete_file_contract
    ⟨[([txt "ws", txt "d", txt "x"], [65])], [[txt "ws"], [txt "ws", txt "d"]]⟩ [txt "ws"] (txt "d")
  have h2 := delete_file_contract
    ⟨[([txt "ws", txt "d", txt "x"], [65])], [[txt "ws"], [txt "ws", txt "d"]]⟩ [txt "ws"]
    (txt "d/x")
  have h3 := delete_file_contract
    ⟨[([txt "ws", txt "d", txt "x"], [65])], [[txt "ws"], [txt "ws", txt "d"]]⟩ [txt "ws"]
    (txt "nope")
  exact ⟨h1.1 (by decide) (by decide) (by decide),
    (h2.2.2.1 (by decide) (by decide)).1,
    h3.2.2.2 (by decide)⟩

/-! ## Claim C2: the safe-mode allow-list gate -/

/-- Claim C2: with safe mode enabled, every command whose first token does
not start with one of the fixed allow-listed prefixes is refused before
any process is spawned (the result is the same for every process oracle),
with the allow-list enumerated in the error message; in particular
`run("rm -rf /")` is refused for every oracle while `run("python
script.py")` proceeds to the spawn. -/
theorem safe_mode_allowlist_gate :
    (∀ (cmd reason : List Char) (proc proc' : List (List Char) → ProcOutcome)
        (base : List Char) (rest : List (List Char)),
      splitCommand cmd = base :: rest →
      (allowedCommands.any fun a => hasLead base a) = false →
      runCommand cmd reason true proc = refuseResult base ∧
        runCommand cmd reason true proc = runCommand cmd reason true proc') ∧
    (∀ (reason : List Char) (proc : List (List Char) → ProcOutcome),
      runCommand (txt "rm -rf /") reason true proc = refuseResult (txt "rm")) ∧
    (∀ (reason : List Char) (proc : List (List Char) → ProcOutcome),
      runCommand (txt "python script.py") reason true proc =
        spawnResult (txt "python script.py") reason (txt "python")
          (proc [txt "python", txt "script.py"])) := by
  refine ⟨?_, ?_, ?_⟩
  · intro cmd reason proc proc' base rest hsplit hall
    constructor <;> (simp only [runCommand, hsplit]; simp [hall])
  · intro reason proc
    rfl
  · intro reason proc
    rfl

/-- Witness for C2: the refusal of `rm -rf /` under a concrete process
oracle, obtained from the general gate theorem with its hypotheses
discharged by computation. -/
theorem safe_mode_allowlist_gate_witness :
    runCommand (txt "rm -rf /") (txt "cleanup") true (fun _ => ProcOutcome.timedOut) =
      refuseResult (txt "rm") ∧
    runCommand (txt "rm -rf /") (txt "cleanup") true (fun _ => ProcOutcome.timedOut) =
      runCommand (txt "rm -rf /") (txt "cleanup") true (fun _ => ProcOutcome.notFound) :=
  safe_mode_allowlist_gate.1 (txt "rm -rf /") (txt "cleanup") (fun _ => ProcOutcome.timedOut)
    (fun _ => ProcOutcome.notFound) (txt "rm") [txt "-rf", txt "/"] (by decide) (by decide)

/-! ## Claim C9: `run_command` outcome reporting -/

/-- Claim C9: `run_command` succeeds exactly when the spawned process
exits with code 0; a non-zero exit is a reported failure carrying the exit
code in the metadata; timeout and executable-not-found are reported as
distinct failure kinds; and a command line that is empty after splitting
is a reported failure that never consults the process oracle.  Every
outcome is an ordinary `ToolResult` value (no exception reaches the
caller: the model is total). -/
theorem run_command_outcomes :
    (∀ (cmd reason : List Char) (proc : List (List Char) → ProcOutcome),
      splitCommand cmd = [] →
      runCommand cmd reason false proc = ⟨false, [], some (txt "Empty command"), []⟩ ∧
        ∀ proc', runCommand cmd reason false proc = runCommand cmd reason false proc') ∧
    (∀ (cmd reason : List Char) (proc : List (List Char) → ProcOutcome)
        (base : List Char) (rest : List (List Char)) (rc : Int) (out err : List Char),
      splitCommand cmd = base :: rest →
      proc (base :: rest) = ProcOutcome.exited rc out err →
      ((runCommand cmd reason false proc).success = true ↔ rc = 0) ∧
        (rc ≠ 0 → (runCommand cmd reason false proc).error =
          some (txt "Command exited with code " ++ intStr rc)) ∧
        lookupA (runCommand cmd reason false proc).metadata (txt "returncode") =
          some (MVal.i rc)) ∧
    (∀ (cmd reason : List Char) (proc : List (List Char) → ProcOutcome)
        (base : List Char) (rest : List (List Char)),
      splitCommand cmd = base :: rest →
      proc (base :: rest) = ProcOutcome.timedOut →
      runCommand cmd reason false proc =
        ⟨false, [], some (txt "Command timed out after 60 seconds"), []⟩) ∧
    (∀ (cmd reason : List Char) (proc : List (List Char) → ProcOutcome)
        (base : List Char) (rest : List (List Char)),
      splitCommand cmd = base :: rest →
      proc (base :: rest) = ProcOutcome.notFound →
      runCommand cmd reason false proc =
        ⟨false, [], some (txt "Command not found: " ++ base), []⟩) ∧
    (∀ base : List Char,
      (txt "Command timed out after 60 seconds" : List Char) ≠
        txt "Command not found: " ++ base) := by
  refine ⟨?_, ?_, ?_, ?_, ?_⟩
  · intro cmd reason proc hsplit
    constructor
    · simp only [runCommand, hsplit]
    · intro proc'
      simp only [runCommand, hsplit]
  · intro cmd reason proc base rest rc out err hsplit hproc
    have hrun : runCommand cmd reason false proc =
        spawnResult cmd reason base (ProcOutcome.exited rc out err) := by
      simp only [runCommand, hsplit, hproc]
      simp
    rw [hrun]
    refine ⟨?_, ?_, ?_⟩
    · simp [spawnResult]
    · intro hne
      simp [spawnResult, hne]
    · by_cases hrc : rc = 0 <;> simp [spawnResult, hrc, lookupA]
  · intro cmd reason proc base rest hsplit hproc
    simp only [runCommand, hsplit, hproc]
    simp [spawnResult]
  · intro cmd reason proc base rest hsplit hproc
    simp only [runCommand, hsplit, hproc]
    simp [spawnResult]
  · intro base h
    have h2 := congrArg (fun l => List.take (txt "Command not found: ").length l) h
    simp only [List.take_left] at h2
    exact absurd h2 (by decide)

/-- Witness for C9: concrete instances — a process exiting 7 is reported
as failure with the exit code, a timeout and a missing executable are
reported with their distinct messages, and an all-whitespace command line
is the empty-command failure. -/
theorem run_command_outcomes_witness :
    runCommand (txt "  ") (txt "r") false (fun _ => ProcOutcome.timedOut) =
      ⟨false, [], some (txt "Empty command"), []⟩ ∧
    ((runCommand (txt "python x.py") (txt "r") false
        (fun _ => ProcOutcome.exited 7 (txt "o") [])).success = true ↔ (7 : Int) = 0) ∧
    lookupA (runCommand (txt "python x.py") (txt "r") false
        (fun _ => ProcOutcome.exited 7 (txt "o") [])).metadata (txt "returncode") =
      some (MVal.i 7) ∧
    runCommand (txt "sleep 100") (txt "r") false (fun _ => ProcOutcome.timedOut) =
      ⟨false, [], some (txt "Command timed out after 60 seconds"), []⟩ ∧
    runCommand (txt "nosuch") (txt "r") false (fun _ => ProcOutcome.notFound) =
      ⟨false, [], some (txt "Command not found: " ++ txt "nosuch"), []⟩ := by
  refine ⟨(run_command_outcomes.1 (txt "  ") (txt "r") (fun _ => ProcOutcome.timedOut)
      (by decide)).1, ?_, ?_, ?_, ?_⟩
  · exact (run_command_outcomes.2.1 (txt "python x.py") (txt "r")
      (fun _ => ProcOutcome.exited 7 (txt "o") []) (txt "python") [txt "x.py"] 7 (txt "o") []
      (by decide) rfl).1
  · exact (run_command_outcomes.2.1 (txt "python x.py") (txt "r")
      (fun _ => ProcOutcome.exited 7 (txt "o") []) (txt "python") [txt "x.py"] 7 (txt "o") []
      (by decide) rfl).2.2
  · exact run_command_outcomes.2.2.1 (txt "sleep 100") (txt "r") (fun _ => ProcOutcome.timedOut)
      (txt "sleep") [txt "100"] (by decide) rfl
  · exact run_command_outcomes.2.2.2.1 (txt "nosuch") (txt "r") (fun _ => ProcOutcome.notFound)
      (txt "nosuch") [] (by decide) rfl

/-! ## Claim C5: tier-1 fenced-block extraction -/

/-- Claim C5: for the reply holding exactly one fenced block
`{"tool":"read_file","parameters":{"filepath":"a.py"}}` the cascade
returns exactly one request with tool name `read_file`, those parameters
and empty reasoning (defaults applied from the `reason` key); and in a
two-block reply whose first block fails to parse, the failure is skipped
individually and the second block still yields its request with the
default empty parameters and reasoning. -/
theorem fenced_block_extraction :
    extractToolCalls
        (txt "```json\n\x7b\"tool\":\"read_file\",\"parameters\":\x7b\"filepath\":\"a.py\"\x7d\x7d\n```") =
      [⟨Json.str (txt "read_file"), Json.obj [(txt "filepath", Json.str (txt "a.py"))],
        Json.str []⟩] ∧
    extractToolCalls (txt "```json\n\x7bbroken\n```\n```json\n\x7b\"tool\":\"x\"\x7d\n```") =
      [⟨Json.str (txt "x"), Json.obj [], Json.str []⟩] :=
  ⟨rfl, rfl⟩

/-! ## Claim C6: the tier-3 brace scan can yield several requests -/

/-- Counterexample to claim C6: on a reply holding two complete top-level
objects with `tool` keys (and nothing for tiers 1 and 2), the tier-3 scan
does not stop at the first hit, so the cascade yields two requests — "at
most one ToolCallRequest" is false. -/
theorem tier3_single_result_refuted :
    (tier1 (txt "\x7b\"tool\": \"a\"\x7d \x7b\"tool\": \"b\"\x7d") = [] ∧
      tier2 (txt "\x7b\"tool\": \"a\"\x7d \x7b\"tool\": \"b\"\x7d") = []) ∧
    ¬ ((extractToolCalls (txt "\x7b\"tool\": \"a\"\x7d \x7b\"tool\": \"b\"\x7d")).length ≤ 1) := by
  refine ⟨⟨rfl, rfl⟩, ?_⟩
  rw [show (extractToolCalls (txt "\x7b\"tool\": \"a\"\x7d \x7b\"tool\": \"b\"\x7d")).length = 2
    from rfl]
  omega

/-- Claim C6 amended: the tier-3 scan visits every `{`, parses each
balanced candidate, and accepts EVERY object containing a `tool` key, one
request per object in text order — so it can return more than one
request. -/
theorem tier3_accepts_every_object :
    tier3 (txt "\x7b\"tool\": \"a\"\x7d \x7b\"tool\": \"b\"\x7d") =
      [⟨Json.str (txt "a"), Json.obj [], Json.str []⟩,
       ⟨Json.str (txt "b"), Json.obj [], Json.str []⟩] ∧
    extractToolCalls (txt "\x7b\"tool\": \"a\"\x7d \x7b\"tool\": \"b\"\x7d") =
      [⟨Json.str (txt "a"), Json.obj [], Json.str []⟩,
       ⟨Json.str (txt "b"), Json.obj [], Json.str []⟩] :=
  ⟨rfl, rfl⟩

/-! ## Claim C3: where the truncation repair actually lives -/

/-- Counterexample to claim C3: tier 2 itself performs no brace repair —
the repair runs in the caller only after tier 3 has also failed.  On a
reply that contains a balanced `{"tool": "a"}` before a marker token
followed by JSON truncated with two unmatched `{`, the claimed semantics
(repair inside tier 2, before tier 3) would yield the request parsed from
the fully-formed JSON (tool `b`); the code instead lets tier 3 find the
unrelated object, yielding tool `a`. -/
theorem tier2_repair_claim_refuted :
    countChar (txt "\x7b\"tool\": \"b\", \"parameters\": \x7b\"x\": \"y\"") '\x7b' =
      countChar (txt "\x7b\"tool\": \"b\", \"parameters\": \x7b\"x\": \"y\"") '\x7d' + 2 ∧
    callFromJson (jsonLoads (txt "\x7b\"tool\": \"b\", \"parameters\": \x7b\"x\": \"y\"\x7d\x7d")) =
      some ⟨Json.str (txt "b"), Json.obj [(txt "x", Json.str (txt "y"))], Json.str []⟩ ∧
    extractThenRecover
        (txt "\x7b\"tool\": \"a\"\x7d <|message|>\x7b\"tool\": \"b\", \"parameters\": \x7b\"x\": \"y\"") =
      [⟨Json.str (txt "a"), Json.obj [], Json.str []⟩] ∧
    ¬ (extractThenRecover
        (txt "\x7b\"tool\": \"a\"\x7d <|message|>\x7b\"tool\": \"b\", \"parameters\": \x7b\"x\": \"y\"") =
      [⟨Json.str (txt "b"), Json.obj [(txt "x", Json.str (txt "y"))], Json.str []⟩]) := by
  refine ⟨rfl, rfl, rfl, ?_⟩
  intro h
  rw [show extractThenRecover
      (txt "\x7b\"tool\": \"a\"\x7d <|message|>\x7b\"tool\": \"b\", \"parameters\": \x7b\"x\": \"y\"") =
      [⟨Json.str (txt "a"), Json.obj [], Json.str []⟩] from rfl] at h
  injection h with hc _
  have hn := congrArg ToolCall.toolName hc
  injection hn with hs
  exact absurd hs (by decide)

/-- Claim C3 amended: the brace-deficit repair is applied by the caller
only after all three tiers yield zero results, to the stripped text after
the last marker token (cut at the next `<|`): a reply that is a marker
token followed by JSON truncated with two unmatched `{` yields, through
that recovery, a request equal to the one obtained by parsing the
fully-formed JSON directly; and if appending the deficit still fails to
parse, the recovery yields zero results (all tiers having already
failed). -/
theorem caller_side_brace_repair :
    extractToolCalls
        (txt "<|message|>\x7b\"tool\": \"read_file\", \"parameters\": \x7b\"filepath\": \"a.py\"") =
      [] ∧
    extractThenRecover
        (txt "<|message|>\x7b\"tool\": \"read_file\", \"parameters\": \x7b\"filepath\": \"a.py\"") =
      [⟨Json.str (txt "read_file"), Json.obj [(txt "filepath", Json.str (txt "a.py"))],
        Json.str []⟩] ∧
    callFromJson (jsonLoads
        (txt "\x7b\"tool\": \"read_file\", \"parameters\": \x7b\"filepath\": \"a.py\"\x7d\x7d")) =
      some ⟨Json.str (txt "read_file"), Json.obj [(txt "filepath", Json.str (txt "a.py"))],
        Json.str []⟩ ∧
    extractToolCalls (txt "<|message|>\x7b\"tool\": \"x\", ") = [] ∧
    extractThenRecover (txt "<|message|>\x7b\"tool\": \"x\", ") = [] :=
  ⟨rfl, rfl, rfl, rfl, rfl⟩

/-! ## Claim C7: the turn budget -/

theorem execTaskGo_turns_le (llm : List Msg → Option (List Char))
    (execRes : ToolCall → List Char) :
    ∀ (n : Nat) (msgs : List Msg), (execTaskGo llm execRes msgs n).2 ≤ n := by
  intro n
  induction n with
  | zero => intro msgs; simp [execTaskGo]
  | succ k ih =>
    intro msgs
    simp only [execTaskGo]
    cases hllm : llm msgs with
    | none => simp
    | some content =>
      simp only []
      split
      · split <;> simp
      · split
        · simp
        · exact Nat.succ_le_succ (ih _)

theorem execTaskGo_const_cap (reply : List Char) (execRes : ToolCall → List Char)
    (hne : (extractToolCalls reply).isEmpty = false)
    (hres : (buildResults execRes (extractToolCalls reply)).isEmpty = false) :
    ∀ (n : Nat) (msgs : List Msg),
      execTaskGo (fun _ => some reply) execRes msgs n = (RunOutcome.capReached, n) := by
  intro n
  induction n with
  | zero => intro msgs; rfl
  | succ k ih =>
    intro msgs
    simp only [execTaskGo]
    rw [if_neg (by simp [hne])]
    rw [if_neg (by simp [hres])]
    rw [ih]

/-- Claim C7: in every task execution the number of turns taken never
exceeds `maxTurns` (for every model and tool oracle); exhausting the
budget ends the run as `capReached`, which is not a failure marking; and
with a model that always produces a tool call the loop indeed runs exactly
`maxTurns` turns and ends `capReached` without any completion signal. -/
theorem turn_budget_bound :
    (∀ (llm : List Msg → Option (List Char)) (execRes : ToolCall → List Char)
        (sysPrompt task ws : List Char) (n : Nat),
      (execTask llm execRes sysPrompt task ws n).2 ≤ n) ∧
    isFailureMark RunOutcome.capReached = false ∧
    (∀ (sysPrompt task ws : List Char) (n : Nat),
      execTask (fun _ => some (txt "```json\n\x7b\"tool\":\"x\"\x7d\n```")) (fun _ => txt "ok")
        sysPrompt task ws n = (RunOutcome.capReached, n)) := by
  refine ⟨?_, rfl, ?_⟩
  · intro llm execRes s t w n
    exact execTaskGo_turns_le llm execRes n _
  · intro s t w n
    exact execTaskGo_const_cap (txt "```json\n\x7b\"tool\":\"x\"\x7d\n```") (fun _ => txt "ok")
      rfl rfl n _

/-! ## Claim C4: the termination heuristic is not reached without markers -/

/-- Claim C4 is contradicted by the code (an indentation slip): the
completion-word scan sits inside the marker-token branch, so a reply on
which all three tiers yield zero tool calls and which contains no marker
token ends the loop silently (`noResults`) — here the reply
`All finished.` contains the completion word `finished`, yet the run does
not end `taskCompleted` and no format warning is issued either. -/
theorem done_scan_skipped_without_marker :
    extractToolCalls (txt "All finished.") = [] ∧
    hasDoneWord (txt "All finished.") = true ∧
    containsSub (txt "All finished.") markerA = false ∧
    containsSub (txt "All finished.") markerB = false ∧
    execTask (fun _ => some (txt "All finished.")) (fun _ => txt "ok")
        (txt "S") (txt "T") (txt "W") 5 = (RunOutcome.noResults, 1) ∧
    RunOutcome.noResults ≠ RunOutcome.taskCompleted ∧
    RunOutcome.noResults ≠ RunOutcome.formatWarn :=
  ⟨rfl, rfl, rfl, rfl, rfl, by decide, by decide⟩

end Cobalt
